import Mathlib

/-!
Shallow embedding of the markdown-enrichment pipeline (`rich`): path safety,
fence escaping and merge, ledger-key computation, atomic file writing,
exclusion-ledger updates, provider shape selection, response extraction,
rate limiting, and the per-file / per-directory orchestration.  Each
definition mirrors one Go function of the source; theorems settle the
specification claims about them.
-/

namespace Rich

/-- Character constants used by the fence escaping (backtick, backslash). -/
def btick : Char := Char.ofNat 96

/-- Backslash character. -/
def bslash : Char := Char.ofNat 92

/-- Decidable test that `pat` occurs at the head of `l` (Go only uses this
through substring containment, below). -/
def startsWith {α : Type} [DecidableEq α] : List α → List α → Bool
  | [], _ => true
  | _ :: _, [] => false
  | p :: ps, x :: xs => decide (p = x) && startsWith ps xs

/-- Leftmost substring containment: `occurs pat l` is true iff `pat` occurs
contiguously inside `l`.  This embeds the Go function `strings.Contains`. -/
def occurs {α : Type} [DecidableEq α] (pat : List α) : List α → Bool
  | [] => pat.isEmpty
  | x :: xs => startsWith pat (x :: xs) || occurs pat xs

/-- Go `strings.Contains s sub`. -/
def goContains (s sub : String) : Bool := occurs sub.toList s.toList

/-- ASCII lowercasing of a character; embeds Go `strings.ToLower` on the
ASCII URLs the program matches against. -/
def lowerChar (c : Char) : Char :=
  if 65 ≤ c.toNat ∧ c.toNat ≤ 90 then Char.ofNat (c.toNat + 32) else c

/-- Go `strings.ToLower` (ASCII range, as exercised by the program). -/
def goLower (s : String) : String := String.mk (s.toList.map lowerChar)

/-- Path-safety check, from `isPathSafe` (src/rich.cfg lines 227-236): the
path is rejected exactly when it contains the literal substring "../" or
"..\\"; no normalization and no root comparison is performed. -/
def isPathSafe (path : String) : Bool :=
  !(goContains path "../") && !(goContains path "..\\")

/-- Fence escaping, from `processFile` line 589:
`strings.ReplaceAll(content, "```", "\\`\\`\\`")` — leftmost,
non-overlapping replacement of each triple backtick by `\`+backtick
three times. -/
def escapeTicks : List Char → List Char
  | a :: b :: c :: rest =>
    if a = btick ∧ b = btick ∧ c = btick then
      bslash :: btick :: bslash :: btick :: bslash :: btick :: escapeTicks rest
    else a :: escapeTicks (b :: c :: rest)
  | l => l

/-- String form of the fence escaping. -/
def escapedContent (content : String) : String :=
  String.mk (escapeTicks content.toList)

/-- Merged output, from `processFile` line 592:
`fmt.Sprintf("%s\n\n```old\n%s\n```", enrichedContent, escapedContent)`. -/
def finalContent (enriched content : String) : String :=
  enriched ++ "\n\n```old\n" ++ escapedContent content ++ "\n```"

/-- Three consecutive backticks, the fence-opening token. -/
def tripleTick : List Char := [btick, btick, btick]

/-- Five consecutive backticks: the shortest run whose escape re-creates a
triple backtick. -/
def fiveTick : List Char := [btick, btick, btick, btick, btick]

/-- Suffix test, embedding Go `strings.HasSuffix`. -/
def goHasSuffix (s suf : String) : Bool :=
  startsWith suf.toList.reverse s.toList.reverse

/-- Maximum file size accepted by `validateContent` (10 MiB). -/
def maxFileSize : Nat := 10 * 1024 * 1024

/-- A cleaned filesystem path: whether it is absolute, and its segments.
This is the domain on which the program applies `filepath.Abs`,
`filepath.Rel` and `filepath.Base`. -/
structure GoPath where
  isAbs : Bool
  segs : List String
deriving DecidableEq

/-- Embeds Go `filepath.Rel base target` restricted to what the caller
observes: Go returns an error when exactly one of the two paths is
absolute ("cannot make target relative to base"), and the caller treats
both a `Rel` error and a result containing ".." the same way (fallback to
the base name), so a target that does not extend the base is modelled as
`none` as well. -/
def goRel (base target : GoPath) : Option (List String) :=
  if base.isAbs ≠ target.isAbs then none
  else if startsWith base.segs target.segs then
    some (target.segs.drop base.segs.length)
  else none

/-- Embeds Go `filepath.Base`: the last path segment. -/
def goBase (p : GoPath) : String := (p.segs.getLast?).getD "."

/-- Joins relative segments back into the string `filepath.Rel` returns. -/
def joinSegs (segs : List String) : String := String.intercalate "/" segs

/-- Exclusion-ledger key computed by `processFile` (src/rich.cfg lines
599-603): the path of the input file relative to `config.InputDir`, falling
back to the bare base name when `filepath.Rel` fails or the relative path
contains "..". -/
def ledgerKey (inputDir inputPath : GoPath) : String :=
  match goRel inputDir inputPath with
  | some segs =>
    let rel := joinSegs segs
    if goContains rel ".." then goBase inputPath else rel
  | none => goBase inputPath

/-- Provider shapes distinguished by `enrichContent`. -/
inductive ApiShape where
  | openaiStyle
  | anthropicStyle
  | generic
deriving DecidableEq

/-- Request-body shape selection, from `enrichContent` lines 303-334:
case-insensitive substring match of the configured URL against
"openai"/"openrouter", then "anthropic", else the generic
`{model, prompt, temperature, max_tokens}` shape. -/
def reqShape (url : String) : ApiShape :=
  let u := goLower url
  if goContains u "openai" || goContains u "openrouter" then .openaiStyle
  else if goContains u "anthropic" then .anthropicStyle
  else .generic

/-- Response-parsing shape selection, from `enrichContent` lines 411-458:
note the extra "chat/completions" signature that the request side does not
test. -/
def respShape (url : String) : ApiShape :=
  let u := goLower url
  if goContains u "openai" || goContains u "openrouter" ||
      goContains u "chat/completions" then .openaiStyle
  else if goContains u "anthropic" then .anthropicStyle
  else .generic

/-- JSON values as produced by `json.Unmarshal` into `interface\x7b\x7d`. -/
inductive Json where
  | jnull
  | jbool (b : Bool)
  | jnum (q : Int)
  | jstr (s : String)
  | jarr (elems : List Json)
  | jobj (fields : List (String × Json))

/-- Field lookup in an unmarshalled JSON object. -/
def jlookup (fields : List (String × Json)) (k : String) : Option Json :=
  match fields with
  | [] => none
  | (k', v) :: rest => if k' = k then some v else jlookup rest k

/-- Go type assertion `.([]interface\x7b\x7d)`. -/
def asArr : Option Json → Option (List Json)
  | some (.jarr l) => some l
  | _ => none

/-- Go type assertion `.(map[string]interface\x7b\x7d)`. -/
def asObj : Option Json → Option (List (String × Json))
  | some (.jobj f) => some f
  | _ => none

/-- Go type assertion `.(string)`. -/
def asStr : Option Json → Option String
  | some (.jstr s) => some s
  | _ => none

/-- Error strings of `enrichContent`, lines 414-457 (verbatim). -/
def errNoChoices : String :=
  "некорректный формат ответа API: отсутствует поле choices или оно пустое"

/-- Error for a malformed first element of choices. -/
def errChoiceElem : String := "некорректный формат элемента choices в ответе API"

/-- Error for a malformed message field. -/
def errMessage : String := "некорректный формат поля message в ответе API"

/-- Error for a malformed content field. -/
def errContent : String := "некорректный формат поля content в ответе API"

/-- Anthropic error for a missing or empty content array. -/
def errAnthContent : String :=
  "некорректный формат ответа Anthropic API: отсутствует поле content или оно пустое"

/-- Anthropic error for a malformed element of content. -/
def errAnthElem : String :=
  "некорректный формат элемента content в ответе Anthropic API"

/-- Anthropic error for a malformed text field. -/
def errAnthText : String := "некорректный формат поля text в ответе Anthropic API"

/-- Generic-shape error: a fixed message that names no field. -/
def errGeneric : String := "некорректный формат ответа API"

/-- OpenAI/OpenRouter-style extraction (`choices[0].message.content`),
lines 414-434. -/
def extractOpenai (resp : List (String × Json)) : Except String String :=
  match asArr (jlookup resp "choices") with
  | none => .error errNoChoices
  | some [] => .error errNoChoices
  | some (c0 :: _) =>
    match asObj (some c0) with
    | none => .error errChoiceElem
    | some fc =>
      match asObj (jlookup fc "message") with
      | none => .error errMessage
      | some msg =>
        match asStr (jlookup msg "content") with
        | none => .error errContent
        | some s => .ok s

/-- Anthropic-style extraction (`content[0].text`), lines 435-451. -/
def extractAnthropic (resp : List (String × Json)) : Except String String :=
  match asArr (jlookup resp "content") with
  | none => .error errAnthContent
  | some [] => .error errAnthContent
  | some (c0 :: _) =>
    match asObj (some c0) with
    | none => .error errAnthElem
    | some fc =>
      match asStr (jlookup fc "text") with
      | none => .error errAnthText
      | some s => .ok s

/-- Generic extraction (top-level `text` field), lines 452-458. -/
def extractGeneric (resp : List (String × Json)) : Except String String :=
  match asStr (jlookup resp "text") with
  | none => .error errGeneric
  | some s => .ok s

/-- Shape-directed extraction. -/
def extractByShape : ApiShape → List (String × Json) → Except String String
  | .openaiStyle, resp => extractOpenai resp
  | .anthropicStyle, resp => extractAnthropic resp
  | .generic, resp => extractGeneric resp

/-- Go `strings.TrimSpace`. -/
def goTrim (s : String) : String := s.trim

/-- The outcome of the network part of `enrichContent`, up to the JSON
unmarshal: where the call failed, or the unmarshalled top-level object. -/
inductive EnrichOutcome where
  | marshalErr (msg : String)
  | requestErr (msg : String)
  | httpErr (msg : String)
  | statusErr (code : Nat) (body : String)
  | readErr (msg : String)
  | unmarshalErr (msg : String)
  | parsed (resp : List (String × Json))

/-- Failure points of `enrichContent` that happen before shape extraction:
marshalling, request creation, HTTP transport, non-200 status, body read,
JSON unmarshal. -/
def isEarlyFailure : EnrichOutcome → Bool
  | .marshalErr _ => true
  | .requestErr _ => true
  | .httpErr _ => true
  | .statusErr _ _ => true
  | .readErr _ => true
  | .unmarshalErr _ => true
  | .parsed _ => false

/-- Result of `enrichContent` (lines 292-461) as its `(string, error)` pair,
parametrized by the network outcome: every failure before shape extraction
returns the original content, an extraction failure returns the empty
string, success returns the trimmed text. -/
def enrichResult (url content : String) (o : EnrichOutcome) :
    String × Option String :=
  match o with
  | .marshalErr m => (content, some ("ошибка при подготовке JSON запроса: " ++ m))
  | .requestErr m => (content, some ("ошибка при создании HTTP запроса: " ++ m))
  | .httpErr m => (content, some ("ошибка при выполнении HTTP запроса: " ++ m))
  | .statusErr code body =>
    (content, some ("API запрос вернул статус " ++ toString code ++ ": " ++ body))
  | .readErr m => (content, some ("ошибка при чтении ответа API: " ++ m))
  | .unmarshalErr m => (content, some ("ошибка при разборе JSON ответа: " ++ m))
  | .parsed resp =>
    match extractByShape (respShape url) resp with
    | .error e => ("", some e)
    | .ok t => (goTrim t, none)

/-- Token-bucket state of the `RateLimiter` (lines 250-289): a buffered
channel of capacity `cap` currently holding `tokens` values. -/
structure RL where
  cap : Nat
  tokens : Nat

/-- Construction: `NewRateLimiter` fills the bucket to capacity on construction. -/
def rlInit (n : Nat) : RL := ⟨n, n⟩

/-- One refill tick of the background goroutine: the non-blocking send adds
a token when the buffer has room and drops the token otherwise. -/
def rlTick (r : RL) : RL :=
  if r.tokens < r.cap then ⟨r.cap, r.tokens + 1⟩ else r

/-- Waiting: `RateLimiter.Wait` receives from the channel: it completes only when a
token is buffered, and blocks (`none`) on an empty bucket. -/
def rlWait (r : RL) : Option RL :=
  if r.tokens = 0 then none else some ⟨r.cap, r.tokens - 1⟩

/-- Events of the rate-limiter transition system. -/
inductive RLEv where
  | waitEv
  | tickEv
deriving DecidableEq

/-- One step of the transition system. -/
def rlStep (r : RL) : RLEv → Option RL
  | .waitEv => rlWait r
  | .tickEv => some (rlTick r)

/-- Runs a sequence of events; `none` when some wait cannot complete. -/
def rlRun : RL → List RLEv → Option RL
  | r, [] => some r
  | r, e :: es =>
    match rlStep r e with
    | none => none
    | some r' => rlRun r' es

/-- Number of completed waits in an event sequence. -/
def countWaits (evs : List RLEv) : Nat :=
  evs.countP (fun e => decide (e = RLEv.waitEv))

/-- Number of refill ticks in an event sequence. -/
def countTicks (evs : List RLEv) : Nat :=
  evs.countP (fun e => decide (e = RLEv.tickEv))

/-- A flat filesystem: each path maps to the content of the file stored
there, if any. -/
def FS : Type := String → Option String

/-- Creating, overwriting or (with `none`) removing one file. -/
def fsSet (fs : FS) (p : String) (v : Option String) : FS :=
  fun q => if q = p then v else fs q

/-- Which of the five fallible steps of `safeWriteFile` fail in a given
call (the filesystem faults are external input to the function). -/
structure WriteFlags where
  createFails : Bool
  writeFails : Bool
  closeFails : Bool
  chmodFails : Bool
  renameFails : Bool

/-- Embeds `safeWriteFile` (lines 509-553): create a temporary file beside the
target, write the data, close, set permissions, then rename onto `path`.
Every failure removes the temporary file and reports an error; only the
final rename publishes the data at `path`.  `tempPath` is the fresh name
`os.CreateTemp` picked (guaranteed distinct from every existing file). -/
def safeWriteFile (fs : FS) (path tempPath : String) (data : String)
    (f : WriteFlags) : FS × Option String :=
  if f.createFails then (fs, some "не удалось создать временный файл")
  else
    let fs1 := fsSet fs tempPath (some "")
    if f.writeFails then
      (fsSet fs1 tempPath none, some "не удалось записать данные во временный файл")
    else
      let fs2 := fsSet fs1 tempPath (some data)
      if f.closeFails then
        (fsSet fs2 tempPath none, some "не удалось закрыть временный файл")
      else if f.chmodFails then
        (fsSet fs2 tempPath none,
          some "не удалось установить права доступа для временного файла")
      else if f.renameFails then
        (fsSet fs2 tempPath none, some "не удалось переименовать временный файл")
      else (fsSet (fsSet fs2 tempPath none) path (some data), none)

/-- Embeds `addToExcludedFiles` (lines 464-506) on the parsed entry list of the
configuration store: the new path (already cleaned) is appended only when
no existing entry normalizes to it; marking an already-present path leaves
the list unchanged.  `norm` is the `Clean ∘ TrimSpace` normalization Go
applies to each stored entry before comparing. -/
def addToExcluded (norm : String → String) (entries : List String)
    (rel : String) : List String :=
  if entries.any (fun e => decide (norm e = rel)) then entries
  else entries ++ [rel]

/-- Pipeline state threaded through the run: the output filesystem and the
persisted exclusion entries. -/
structure PState where
  fs : FS
  excluded : List String

/-- External outcomes of the fallible steps of one `processFile` call. -/
structure FileOracle where
  readResult : Option String
  enrichOutcome : EnrichOutcome
  mkdirOk : Bool
  writeFlags : WriteFlags
  ledgerOk1 : Bool
  ledgerOk2 : Bool

/-- Embeds `processFile` (lines 556-615): check both paths, read, validate size,
enrich, create the output directory, merge, write atomically, and only
after a successful write record `rel` in the exclusion ledger (retrying the
ledger write once; a ledger failure is logged but does not fail the call).
Returns the updated state and the error, if any. -/
def processFileM (url : String) (inputPath outputPath tempPath rel : String)
    (norm : String → String) (o : FileOracle) (st : PState) :
    PState × Option String :=
  if ¬ (isPathSafe inputPath && isPathSafe outputPath) then
    (st, some ("обнаружен небезопасный путь: " ++ inputPath ++ " или " ++ outputPath))
  else
    match o.readResult with
    | none => (st, some "ошибка при чтении файла")
    | some content =>
      if content.length > maxFileSize then
        (st, some "ошибка валидации содержимого файла")
      else
        match enrichResult url content o.enrichOutcome with
        | (_, some e) => (st, some ("ошибка при обогащении содержимого: " ++ e))
        | (enriched, none) =>
          if ¬ o.mkdirOk then (st, some "ошибка при создании выходной директории")
          else
            match safeWriteFile st.fs outputPath tempPath
                (finalContent enriched content) o.writeFlags with
            | (fs', some e) => (⟨fs', st.excluded⟩,
                some ("ошибка при записи выходного файла: " ++ e))
            | (fs', none) =>
              let ex' :=
                if o.ledgerOk1 || o.ledgerOk2 then
                  addToExcluded norm st.excluded rel
                else st.excluded
              (⟨fs', ex'⟩, none)

/-- One entry seen by the `filepath.Walk` callback of `processDirectory`:
the walk-supplied error flag, directory flag, file name, the relative path
derived from the input root (with its possible `Rel` failure), the paths
the entry is processed with, and the outcomes of its `processFile` call. -/
structure WalkEntry where
  walkErr : Bool
  isDir : Bool
  name : String
  relErr : Bool
  relPath : String
  inputPath : String
  outputPath : String
  tempPath : String
  oracle : FileOracle

/-- The body of the walk callback (lines 649-693): abort the walk on a
walk error, a `Rel` failure or a traversal segment in the relative path;
skip directories, non-`.md` names and initially-excluded paths; otherwise
process the file, logging and continuing when `processFile` fails and
counting it when it succeeds. -/
def walkStep (excluded0 : List String) (url : String)
    (norm : String → String) (e : WalkEntry) (st : PState) (count : Nat) :
    Except String (PState × Nat) :=
  if e.walkErr then .error "ошибка обхода"
  else if e.isDir then .ok (st, count)
  else if ¬ goHasSuffix (goLower e.name) ".md" then .ok (st, count)
  else if e.relErr then .error "ошибка при получении относительного пути"
  else if goContains e.relPath ".." then
    .error ("обнаружена попытка path traversal: " ++ e.relPath)
  else if excluded0.contains e.relPath then .ok (st, count)
  else
    match processFileM url e.inputPath e.outputPath e.tempPath e.relPath
        norm e.oracle st with
    | (st', some _) => .ok (st', count)
    | (st', none) => .ok (st', count + 1)

/-- The walk of `processDirectory` over the discovered entries, threading
state and the processed-file counter, aborting on a callback error. -/
def walkAll (excluded0 : List String) (url : String) (norm : String → String) :
    List WalkEntry → PState → Nat → Except String (PState × Nat)
  | [], st, count => .ok (st, count)
  | e :: rest, st, count =>
    match walkStep excluded0 url norm e st count with
    | .error msg => .error msg
    | .ok (st', count') => walkAll excluded0 url norm rest st' count'

/-- Embeds `processDirectory` (lines 618-701): reject unsafe roots, then walk the
tree.  The in-memory exclusion set used for skipping is fixed at entry
(`excluded0`); ledger updates during the run change only the persisted
state. -/
def processDirectoryM (inputDir outputDir : String) (excluded0 : List String)
    (url : String) (norm : String → String) (entries : List WalkEntry)
    (st : PState) : Except String (PState × Nat) :=
  if ¬ (isPathSafe inputDir && isPathSafe outputDir) then
    .error "обнаружен небезопасный путь директории"
  else walkAll excluded0 url norm entries st 0

/-- Walk entries whose walk-level fields cannot abort the traversal: no
walk-supplied error, no `filepath.Rel` failure, no ".." in the relative
path. -/
def cleanEntry (e : WalkEntry) : Prop :=
  e.walkErr = false ∧ e.relErr = false ∧ goContains e.relPath ".." = false

/-- Example fixture: a document whose read fails (its enrichment outcome is
never consulted). -/
def egFailEntry : WalkEntry :=
  ⟨false, false, "a.md", false, "a.md", "in/a.md", "done/a.md", "done/t1.tmp",
    ⟨none, .parsed [], true, ⟨false, false, false, false, false⟩, true, true⟩⟩

/-- Example fixture: a document that is read, enriched through the generic
shape and written without faults. -/
def egOkEntry : WalkEntry :=
  ⟨false, false, "b.md", false, "b.md", "in/b.md", "done/b.md", "done/t2.tmp",
    ⟨some "# B", .parsed [("text", Json.jstr "обогащено")], true,
      ⟨false, false, false, false, false⟩, true, true⟩⟩

/-- Example fixture: an empty output filesystem with no ledger entries. -/
def egEmptyState : PState := ⟨fun _ => none, []⟩

end Rich

namespace Rich

theorem startsWith_append {α : Type} [DecidableEq α] (l r : List α) :
    startsWith l (l ++ r) = true := by
  induction l with
  | nil => rfl
  | cons a t ih => simp [startsWith, ih]

theorem occurs_cons_false {α : Type} [DecidableEq α] (pat : List α) (x : α)
    (xs : List α) (h : occurs pat (x :: xs) = false) : occurs pat xs = false := by
  have h' := h
  simp [occurs, Bool.or_eq_false_iff] at h'
  exact h'.2

/-- Head preservation: if the escape output starts with a backtick then so
did the input. -/
theorem escape_head (l : List Char) (t : List Char)
    (h : escapeTicks l = btick :: t) : ∃ r, l = btick :: r := by
  match l with
  | [] => simp [escapeTicks] at h
  | [x] =>
    simp [escapeTicks] at h
    exact ⟨[], by simp [h.1]⟩
  | [x, y] =>
    simp [escapeTicks] at h
    exact ⟨[y], by simp [h.1]⟩
  | a :: b :: c :: rest =>
    by_cases htr : a = btick ∧ b = btick ∧ c = btick
    · simp [escapeTicks, htr] at h
      have : bslash = btick := h.1
      exact absurd this (by decide)
    · simp [escapeTicks, htr] at h
      exact ⟨b :: c :: rest, by simp [h.1]⟩

/-- Two-character head preservation: if the escape output starts with two
backticks then the input started with two backticks. -/
theorem escape_head2 (l : List Char) (t : List Char)
    (h : escapeTicks l = btick :: btick :: t) : ∃ r, l = btick :: btick :: r := by
  match l with
  | [] => simp [escapeTicks] at h
  | [x] => simp [escapeTicks] at h
  | [x, y] =>
    simp [escapeTicks] at h
    exact ⟨[], by simp [h.1, h.2.1]⟩
  | a :: b :: c :: rest =>
    by_cases htr : a = btick ∧ b = btick ∧ c = btick
    · simp [escapeTicks, htr] at h
      have : bslash = btick := h.1
      exact absurd this (by decide)
    · simp [escapeTicks, htr] at h
      obtain ⟨ha, hrest⟩ := h
      obtain ⟨r, hr⟩ := escape_head (b :: c :: rest) t hrest
      injection hr with hb hcr
      exact ⟨c :: rest, by simp [ha, hb]⟩

/-- Two-element pattern match as an existence statement. -/
theorem sw2_exists (p q : Char) (l : List Char) (h : startsWith [p, q] l = true) :
    ∃ t, l = p :: q :: t := by
  match l with
  | [] => simp [startsWith] at h
  | [x] => simp [startsWith] at h
  | x :: y :: t =>
    simp [startsWith] at h
    exact ⟨t, by rw [h.1, h.2]⟩

/-- If a list with three leading backticks contains no five-backtick run,
its tail after those three does not begin with two backticks. -/
theorem sw_five (rest : List Char)
    (h : occurs fiveTick (btick :: btick :: btick :: rest) = false) :
    startsWith [btick, btick] rest = false := by
  have h1 : startsWith fiveTick (btick :: btick :: btick :: rest) = false := by
    have := h
    simp only [occurs, Bool.or_eq_false_iff] at this
    exact this.1
  simpa [fiveTick, startsWith] using h1

/-- Core guarantee behind the fence escaping: if the original contains no
run of five consecutive backticks, the escaped output contains no triple
backtick. -/
theorem escape_no_triple : (c : List Char) → occurs fiveTick c = false →
    occurs tripleTick (escapeTicks c) = false
  | [], _ => by simp [escapeTicks, occurs, tripleTick]
  | [x], _ => by simp [escapeTicks, occurs, tripleTick, startsWith]
  | [x, y], _ => by simp [escapeTicks, occurs, tripleTick, startsWith]
  | a :: b :: c :: rest, h => by
    by_cases htr : a = btick ∧ b = btick ∧ c = btick
    · obtain ⟨ha, hb, hc⟩ := htr
      subst ha; subst hb; subst hc
      have hrest5 : occurs fiveTick rest = false :=
        occurs_cons_false _ _ _ (occurs_cons_false _ _ _ (occurs_cons_false _ _ _ h))
      have hsw : startsWith [btick, btick] rest = false := sw_five rest h
      have ih := escape_no_triple rest hrest5
      have hne : (btick = bslash) = False := by simp [btick, bslash, Char.ofNat]
      simp only [escapeTicks, if_pos (And.intro rfl (And.intro rfl rfl))]
      simp [occurs, startsWith, tripleTick, hne, ih]
      by_cases hsw2 : startsWith [btick, btick] (escapeTicks rest) = true
      · obtain ⟨t, ht⟩ := sw2_exists _ _ _ hsw2
        obtain ⟨r, hr⟩ := escape_head2 rest t ht
        rw [hr] at hsw
        simp [startsWith] at hsw
      · simp at hsw2
        simp [hsw2]
        exact ih
    · have hrest5 : occurs fiveTick (b :: c :: rest) = false :=
        occurs_cons_false _ _ _ h
      have ih := escape_no_triple (b :: c :: rest) hrest5
      simp only [escapeTicks, htr, if_neg, if_false]
      simp only [occurs, Bool.or_eq_false_iff]
      refine ⟨?_, ih⟩
      by_cases hstart : startsWith tripleTick (a :: escapeTicks (b :: c :: rest)) = true
      · exfalso
        simp only [tripleTick, startsWith, Bool.and_eq_true, decide_eq_true_eq] at hstart
        obtain ⟨hab, hrest2⟩ := hstart
        obtain ⟨t, ht⟩ := sw2_exists _ _ _ hrest2
        obtain ⟨r, hr⟩ := escape_head2 (b :: c :: rest) t ht
        injection hr with hb hcr
        injection hcr with hc _
        exact htr ⟨hab.symm, hb, hc⟩
      · simpa using hstart

/-- C1: the claim asserts that a path whose normalization contains a
parent-traversal segment, such as "/data/..", must be judged unsafe; the
code judges it safe, because `isPathSafe` only scans for the literal
substrings "../" and "..\\" and a trailing ".." matches neither. -/
theorem C1_counterexample : isPathSafe "/data/.." = true := by decide

/-- C1 (amended): `isPathSafe` returns false exactly when the path contains
the literal substring "../" or "..\\"; it performs no normalization and no
root-confinement check, so a trailing ".." segment or an absolute path
outside the root is judged safe. -/
theorem C1_amended (p : String) :
    isPathSafe p = false ↔
      (goContains p "../" = true ∨ goContains p "..\\" = true) := by
  cases hb1 : goContains p "../" <;> cases hb2 : goContains p "..\\" <;>
    simp [isPathSafe, hb1, hb2]

/-- C2: the claim asserts the escaped original contains no triple-backtick
sequence for every original, including runs of four or more backticks; a
run of five backticks refutes it — the escape rewrites the first three and
leaves two, and the trailing backtick of the replacement together with the
two leftovers forms a new triple backtick. -/
theorem C2_counterexample : occurs tripleTick (escapeTicks fiveTick) = true := by
  decide

/-- C2 (amended): the merged output is exactly the enriched text, a blank
line, the fence opening line, the escaped original and the fence closing
line; and whenever the original contains no run of five consecutive
backticks the escaped original contains no triple-backtick sequence, so
such content cannot terminate the fence early. -/
theorem C2_amended (enriched content : String)
    (h : occurs fiveTick content.toList = false) :
    finalContent enriched content =
      enriched ++ "\n\n```old\n" ++ escapedContent content ++ "\n```" ∧
    occurs tripleTick (escapeTicks content.toList) = false :=
  ⟨rfl, escape_no_triple content.toList h⟩

/-- C2 witness: the amended statement at a concrete document containing a
fenced block. -/
theorem C2_witness :
    occurs fiveTick ("a```b".toList) = false ∧
    (finalContent "E" "a```b" =
        "E" ++ "\n\n```old\n" ++ escapedContent "a```b" ++ "\n```" ∧
      occurs tripleTick (escapeTicks ("a```b".toList)) = false) :=
  ⟨by decide, C2_amended "E" "a```b" (by decide)⟩

/-- C6: the claim asserts response parsing uses exactly the same signature
match as request building; a URL containing "chat/completions" but none of
the three provider signatures refutes it — the request is built in the
generic shape while the response is parsed in the OpenAI shape. -/
theorem C6_counterexample :
    reqShape "https://myhost.local/api/chat/completions" = ApiShape.generic ∧
    respShape "https://myhost.local/api/chat/completions" = ApiShape.openaiStyle := by
  constructor <;> decide

/-- C6 (amended): the response-parsing shape equals the request-building
shape for every URL that does not contain the extra "chat/completions"
signature (case-insensitively); in particular a URL matching none of the
four signatures gets the generic request shape and the generic top-level
`text` parsing. -/
theorem C6_amended (url : String)
    (h : goContains (goLower url) "chat/completions" = false) :
    respShape url = reqShape url := by
  simp [respShape, reqShape, h]

/-- C6 witness: a URL with no provider signature at all parses and builds
in the same (generic) shape. -/
theorem C6_witness :
    goContains (goLower "https://api.example.com/generate") "chat/completions" = false ∧
    respShape "https://api.example.com/generate" =
      reqShape "https://api.example.com/generate" :=
  ⟨by decide, C6_amended "https://api.example.com/generate" (by decide)⟩

/-- C7: the claim asserts every extraction failure, the generic fallback
included, names the missing field; the generic fallback refutes it — on a
response without a top-level `text` string it fails with the fixed message
"некорректный формат ответа API", which does not mention the field
`text` (nor any other field). -/
theorem C7_counterexample :
    extractGeneric [] = Except.error errGeneric ∧
    goContains errGeneric "text" = false := by
  exact ⟨rfl, by decide⟩

/-- C7 (amended): for the OpenAI/OpenRouter shape every extraction error
names one of the fields `choices`, `message`, `content`; for the Anthropic
shape every extraction error names `content` or `text`; the generic
fallback instead fails with the fixed message "некорректный формат ответа
API", which names no field. -/
theorem C7_amended (resp : List (String × Json)) :
    (∀ e, extractOpenai resp = .error e →
      (goContains e "choices" || goContains e "message" ||
        goContains e "content") = true) ∧
    (∀ e, extractAnthropic resp = .error e →
      (goContains e "content" || goContains e "text") = true) ∧
    (∀ e, extractGeneric resp = .error e → e = errGeneric) := by
  refine ⟨?_, ?_, ?_⟩
  · intro e h
    unfold extractOpenai at h
    split at h
    · cases h; decide
    · cases h; decide
    · split at h
      · cases h; decide
      · split at h
        · cases h; decide
        · split at h
          · cases h; decide
          · cases h
  · intro e h
    unfold extractAnthropic at h
    split at h
    · cases h; decide
    · cases h; decide
    · split at h
      · cases h; decide
      · split at h
        · cases h; decide
        · cases h
  · intro e h
    unfold extractGeneric at h
    split at h
    · cases h; rfl
    · cases h

/-- C7 witness: the OpenAI shape on an empty response names `choices`. -/
theorem C7_witness :
    (goContains errNoChoices "choices" || goContains errNoChoices "message" ||
      goContains errNoChoices "content") = true :=
  (C7_amended []).1 errNoChoices rfl

/-- Iterated waits on a bucket: exactly `min` semantics — `k` waits succeed
iff at least `k` tokens are buffered. -/
theorem rlRun_waits (k : Nat) : ∀ c t : Nat,
    rlRun ⟨c, t⟩ (List.replicate k RLEv.waitEv) =
      if k ≤ t then some ⟨c, t - k⟩ else none := by
  induction k with
  | zero => intro c t; simp [rlRun]
  | succ k ih =>
    intro c t
    rw [List.replicate_succ]
    simp only [rlRun, rlStep, rlWait]
    by_cases ht : t = 0
    · simp [ht]
    · rw [if_neg ht]
      show rlRun ⟨c, t - 1⟩ (List.replicate k RLEv.waitEv) =
        if k + 1 ≤ t then some ⟨c, t - (k + 1)⟩ else none
      rw [ih c (t - 1)]
      split_ifs with h1 h2 h2
      · congr 1
        simp only [RL.mk.injEq, true_and]
        omega
      · omega
      · omega
      · rfl

/-- Safety bound on any trace: completed waits never exceed the buffered
tokens plus the refill ticks that occurred. -/
theorem rlRun_wait_bound : ∀ (evs : List RLEv) (r r' : RL),
    rlRun r evs = some r' → countWaits evs ≤ r.tokens + countTicks evs := by
  intro evs
  induction evs with
  | nil => intro r r' _; simp [countWaits, countTicks]
  | cons e es ih =>
    intro r r' h
    cases e with
    | waitEv =>
      simp only [rlRun, rlStep, rlWait] at h
      by_cases ht : r.tokens = 0
      · simp [ht] at h
      · rw [if_neg ht] at h
        have hb := ih _ _ h
        simp only [countWaits, countTicks, List.countP_cons] at hb ⊢
        simp only [decide_eq_true_eq] at hb ⊢
        simp at hb ⊢
        omega
    | tickEv =>
      simp only [rlRun, rlStep] at h
      have hb := ih _ _ h
      have htok : (rlTick r).tokens ≤ r.tokens + 1 := by
        unfold rlTick
        split <;> simp
      simp only [countWaits, countTicks, List.countP_cons] at hb ⊢
      simp at hb ⊢
      omega

/-- C9: a limiter of capacity `n ≥ 1` starts full, so `n` waits complete
immediately and drain it; the next wait blocks on the empty bucket and
completes after one refill tick; a tick on a full bucket is dropped so the
token count never exceeds the capacity; and in any trace from the full
bucket the number of completed waits is bounded by `n` plus the number of
elapsed refill ticks — the `(n+1)`-th wait cannot complete before the
first refill interval has elapsed. -/
theorem C9_rate_limiter (n : Nat) (hn : 1 ≤ n) :
    rlRun (rlInit n) (List.replicate n RLEv.waitEv) = some ⟨n, 0⟩ ∧
    rlRun (rlInit n) (List.replicate (n + 1) RLEv.waitEv) = none ∧
    rlWait ⟨n, 0⟩ = none ∧
    rlWait (rlTick ⟨n, 0⟩) = some ⟨n, 0⟩ ∧
    (∀ r : RL, r.tokens ≤ r.cap → (rlTick r).tokens ≤ r.cap ∧ (rlTick r).cap = r.cap) ∧
    (∀ evs, ∀ r' : RL, rlRun (rlInit n) evs = some r' →
      countWaits evs ≤ n + countTicks evs) := by
  refine ⟨?_, ?_, ?_, ?_, ?_, ?_⟩
  · rw [rlInit, rlRun_waits]
    simp
  · rw [rlInit, rlRun_waits]
    simp
  · simp [rlWait]
  · have h0 : rlTick ⟨n, 0⟩ = ⟨n, 1⟩ := by
      unfold rlTick
      simp only
      rw [if_pos (by omega : 0 < n)]
    rw [h0]
    simp [rlWait]
  · intro r hr
    unfold rlTick
    split <;> simp_all
    omega
  · intro evs r' h
    have hb := rlRun_wait_bound evs (rlInit n) r' h
    simpa [rlInit] using hb

/-- C9 witness: three immediate waits drain a capacity-3 limiter. -/
theorem C9_witness :
    rlRun (rlInit 3) (List.replicate 3 RLEv.waitEv) = some ⟨3, 0⟩ :=
  (C9_rate_limiter 3 (by decide)).1

/-- Ledger key under an absolute input root: when the walked file extends
the root and its relative path is free of "..", the key is the full
relative path. -/
theorem ledgerKey_abs (root f : GoPath) (r : List String)
    (hroot : root.isAbs = true) (hf : f.isAbs = true)
    (hs : f.segs = root.segs ++ r)
    (hd : goContains (joinSegs r) ".." = false) :
    ledgerKey root f = joinSegs r := by
  unfold ledgerKey goRel
  rw [hroot, hf, hs]
  simp [startsWith_append, List.drop_left, hd]

/-- C3: the claim quantifies over every configuration, including a relative
`input_dir` such as the shipped default "./todo"; there `filepath.Rel`
cannot relate the relative root to the absolute walked path, `processFile`
falls back to the base name, and two files named dup.md in different
subdirectories collapse to the same ledger key "dup.md" instead of two
distinct relative paths. -/
theorem C3_counterexample :
    ledgerKey ⟨false, ["todo"]⟩ ⟨true, ["w", "todo", "dir1", "dup.md"]⟩ = "dup.md" ∧
    ledgerKey ⟨false, ["todo"]⟩ ⟨true, ["w", "todo", "dir2", "dup.md"]⟩ = "dup.md" := by
  constructor <;> rfl

/-- C3 (amended): when the configured input root is an absolute path, two
processed files under it whose relative paths are ".."-free get ledger keys
equal to their full relative paths, which are distinct whenever the
relative paths differ — duplicate base names in different subdirectories
stay independent; with a relative input root the `Rel` computation fails
and the key degrades to the base name. -/
theorem C3_amended (root f1 f2 : GoPath) (r1 r2 : List String)
    (hroot : root.isAbs = true) (h1 : f1.isAbs = true) (h2 : f2.isAbs = true)
    (hs1 : f1.segs = root.segs ++ r1) (hs2 : f2.segs = root.segs ++ r2)
    (hd1 : goContains (joinSegs r1) ".." = false)
    (hd2 : goContains (joinSegs r2) ".." = false)
    (hne : joinSegs r1 ≠ joinSegs r2) :
    ledgerKey root f1 = joinSegs r1 ∧ ledgerKey root f2 = joinSegs r2 ∧
    ledgerKey root f1 ≠ ledgerKey root f2 := by
  have k1 := ledgerKey_abs root f1 r1 hroot h1 hs1 hd1
  have k2 := ledgerKey_abs root f2 r2 hroot h2 hs2 hd2
  refine ⟨k1, k2, ?_⟩
  rw [k1, k2]
  exact hne

/-- C3 witness: the two dup.md files of the directory test of the repository,
under an absolute input root. -/
theorem C3_witness :
    ledgerKey ⟨true, ["in"]⟩ ⟨true, ["in", "dir1", "dup.md"]⟩ = "dir1/dup.md" ∧
    ledgerKey ⟨true, ["in"]⟩ ⟨true, ["in", "dir2", "dup.md"]⟩ = "dir2/dup.md" ∧
    ledgerKey ⟨true, ["in"]⟩ ⟨true, ["in", "dir1", "dup.md"]⟩ ≠
      ledgerKey ⟨true, ["in"]⟩ ⟨true, ["in", "dir2", "dup.md"]⟩ :=
  C3_amended ⟨true, ["in"]⟩ ⟨true, ["in", "dir1", "dup.md"]⟩
    ⟨true, ["in", "dir2", "dup.md"]⟩ ["dir1", "dup.md"] ["dir2", "dup.md"]
    rfl rfl rfl rfl rfl (by decide) (by decide) (by decide)

/-- C4: every `safeWriteFile` call that fails at temporary-file creation,
write, close, or permission setting removes its temporary file, reports an
error, and leaves the destination exactly as it was — the destination is
touched only by the final rename.  `tempPath` is the fresh name chosen by
`os.CreateTemp`, hence distinct from the destination and previously
absent. -/
theorem C4_atomic_write (fs : FS) (path tempPath data : String) (f : WriteFlags)
    (hne : tempPath ≠ path) (hfresh : fs tempPath = none)
    (hfail : (f.createFails || f.writeFails || f.closeFails || f.chmodFails) = true) :
    (safeWriteFile fs path tempPath data f).1 path = fs path ∧
    (safeWriteFile fs path tempPath data f).1 tempPath = none ∧
    (safeWriteFile fs path tempPath data f).2 ≠ none := by
  obtain ⟨c, w, cl, ch, r⟩ := f
  have hne' : ¬ (path = tempPath) := fun h => hne h.symm
  cases c <;> cases w <;> cases cl <;> cases ch <;>
    simp_all [safeWriteFile, fsSet]

/-- C4 witness: a write failure leaves an absent destination absent and no
temporary file behind. -/
theorem C4_witness :
    ((safeWriteFile (fun _ => none) "done/a.md" "done/temp_1.tmp" "x"
        ⟨false, true, false, false, false⟩).1 "done/a.md" =
      (fun _ => (none : Option String)) "done/a.md") ∧
    (safeWriteFile (fun _ => none) "done/a.md" "done/temp_1.tmp" "x"
        ⟨false, true, false, false, false⟩).1 "done/temp_1.tmp" = none ∧
    (safeWriteFile (fun _ => none) "done/a.md" "done/temp_1.tmp" "x"
        ⟨false, true, false, false, false⟩).2 ≠ none :=
  C4_atomic_write (fun _ => none) "done/a.md" "done/temp_1.tmp" "x"
    ⟨false, true, false, false, false⟩ (by decide) rfl rfl

/-- Marking a path never removes existing ledger entries. -/
theorem addToExcluded_mono (norm : String → String) (entries : List String)
    (rel x : String) (hx : x ∈ entries) : x ∈ addToExcluded norm entries rel := by
  unfold addToExcluded
  split
  · exact hx
  · exact List.mem_append_left _ hx

/-- A successful `safeWriteFile` leaves the full data at the target. -/
theorem safeWriteFile_ok (fs : FS) (p tp d : String) (f : WriteFlags) (fs' : FS)
    (h : safeWriteFile fs p tp d f = (fs', none)) : fs' p = some d := by
  obtain ⟨c, w, cl, ch, r⟩ := f
  cases c <;> cases w <;> cases cl <;> cases ch <;> cases r <;>
    simp_all [safeWriteFile]
  rw [← h]
  simp [fsSet]

/-- A failed `safeWriteFile` changes nothing outside the temporary file. -/
theorem safeWriteFile_err_frame (fs : FS) (p tp d : String) (f : WriteFlags)
    (q : String) (hq : q ≠ tp)
    (herr : (safeWriteFile fs p tp d f).2 ≠ none) :
    (safeWriteFile fs p tp d f).1 q = fs q := by
  obtain ⟨c, w, cl, ch, r⟩ := f
  cases c <;> cases w <;> cases cl <;> cases ch <;> cases r <;>
    simp_all [safeWriteFile, fsSet]

/-- Frame: `safeWriteFile` changes nothing besides the target and the temporary
file. -/
theorem safeWriteFile_frame (fs : FS) (p tp d : String) (f : WriteFlags)
    (q : String) (hq1 : q ≠ tp) (hq2 : q ≠ p) :
    (safeWriteFile fs p tp d f).1 q = fs q := by
  obtain ⟨c, w, cl, ch, r⟩ := f
  cases c <;> cases w <;> cases cl <;> cases ch <;> cases r <;>
    simp_all [safeWriteFile, fsSet]

/-- Monotonicity: `processFile` never removes ledger entries. -/
theorem processFileM_mono (url ip op tp rel : String) (norm : String → String)
    (o : FileOracle) (st : PState) (x : String) (hx : x ∈ st.excluded) :
    x ∈ (processFileM url ip op tp rel norm o st).1.excluded := by
  unfold processFileM
  split
  · exact hx
  · split
    · exact hx
    · split
      · exact hx
      · split
        · exact hx
        · split
          · exact hx
          · split
            · exact hx
            · dsimp only
              split
              · exact addToExcluded_mono norm st.excluded rel x hx
              · exact hx

/-- The ledger state changes only when the whole call succeeded, and then
the merged artifact is on disk at the output path. -/
theorem processFileM_changed (url ip op tp rel : String) (norm : String → String)
    (o : FileOracle) (st : PState)
    (h : (processFileM url ip op tp rel norm o st).1.excluded ≠ st.excluded) :
    (processFileM url ip op tp rel norm o st).2 = none ∧
    ∃ content, o.readResult = some content ∧
      (processFileM url ip op tp rel norm o st).1.fs op =
        some (finalContent (enrichResult url content o.enrichOutcome).1 content) := by
  revert h
  unfold processFileM
  split
  · intro h; exact absurd rfl h
  · split
    · intro h; exact absurd rfl h
    · split
      · intro h; exact absurd rfl h
      · rename_i content hread hsize
        split
        · intro h; exact absurd rfl h
        · rename_i pr enriched henr
          split
          · intro h; exact absurd rfl h
          · split
            · intro h; exact absurd rfl h
            · rename_i fs' hwr
              intro _
              refine ⟨rfl, content, hread, ?_⟩
              have hfs : fs' op = some (finalContent enriched content) :=
                safeWriteFile_ok st.fs op tp (finalContent enriched content)
                  o.writeFlags fs' hwr
              have he1 : (enrichResult url content o.enrichOutcome).1 = enriched := by
                rw [henr]
              rw [he1]
              exact hfs

/-- A failed `processFile` changes the filesystem only at the temporary
path (in particular it produces no output file), and leaves the ledger
untouched. -/
theorem processFileM_err_frame (url ip op tp rel : String) (norm : String → String)
    (o : FileOracle) (st : PState)
    (herr : (processFileM url ip op tp rel norm o st).2 ≠ none)
    (q : String) (hq : q ≠ tp) :
    (processFileM url ip op tp rel norm o st).1.fs q = st.fs q ∧
    (processFileM url ip op tp rel norm o st).1.excluded = st.excluded := by
  revert herr
  unfold processFileM
  split
  · intro _; exact ⟨rfl, rfl⟩
  · split
    · intro _; exact ⟨rfl, rfl⟩
    · split
      · intro _; exact ⟨rfl, rfl⟩
      · split
        · intro _; exact ⟨rfl, rfl⟩
        · split
          · intro _; exact ⟨rfl, rfl⟩
          · split
            · rename_i fs' msg hwr
              intro _
              refine ⟨?_, rfl⟩
              have := safeWriteFile_err_frame st.fs op tp _ o.writeFlags q hq
                (by rw [hwr]; simp)
              rw [hwr] at this
              exact this
            · intro herr
              exact absurd rfl herr

/-- Frame: `processFile` changes the filesystem only at the output path and the
temporary path. -/
theorem processFileM_frame (url ip op tp rel : String) (norm : String → String)
    (o : FileOracle) (st : PState) (q : String) (hq1 : q ≠ tp) (hq2 : q ≠ op) :
    (processFileM url ip op tp rel norm o st).1.fs q = st.fs q := by
  unfold processFileM
  split
  · rfl
  · split
    · rfl
    · rename_i content hread
      split
      · rfl
      · split
        · rfl
        · rename_i pr enriched henr
          split
          · rfl
          · split
            · rename_i fs' msg hwr
              have hfr := safeWriteFile_frame st.fs op tp
                (finalContent enriched content) o.writeFlags q hq1 hq2
              rw [hwr] at hfr
              exact hfr
            · rename_i fs' hwr
              dsimp only
              have hfr := safeWriteFile_frame st.fs op tp
                (finalContent enriched content) o.writeFlags q hq1 hq2
              rw [hwr] at hfr
              exact hfr

/-- A successful `processFile` leaves the merged artifact at the output
path. -/
theorem processFileM_ok_content (url ip op tp rel : String) (norm : String → String)
    (o : FileOracle) (st : PState)
    (hok : (processFileM url ip op tp rel norm o st).2 = none) :
    ∃ content, o.readResult = some content ∧
      (processFileM url ip op tp rel norm o st).1.fs op =
        some (finalContent (enrichResult url content o.enrichOutcome).1 content) := by
  revert hok
  unfold processFileM
  split
  · intro hok; exact absurd hok (by simp)
  · split
    · intro hok; exact absurd hok (by simp)
    · split
      · intro hok; exact absurd hok (by simp)
      · rename_i content hread hsize
        split
        · intro hok; exact absurd hok (by simp)
        · rename_i pr enriched henr
          split
          · intro hok; exact absurd hok (by simp)
          · split
            · intro hok; exact absurd hok (by simp)
            · rename_i fs' hwr
              intro _
              refine ⟨content, hread, ?_⟩
              have hfs : fs' op = some (finalContent enriched content) :=
                safeWriteFile_ok st.fs op tp (finalContent enriched content)
                  o.writeFlags fs' hwr
              have he1 : (enrichResult url content o.enrichOutcome).1 = enriched := by
                rw [henr]
              rw [he1]
              exact hfs

/-- One walk-callback invocation never removes ledger entries. -/
theorem walkStep_mono (excl0 : List String) (url : String)
    (norm : String → String) (e : WalkEntry) (st : PState) (count : Nat)
    (st' : PState) (count' : Nat)
    (h : walkStep excl0 url norm e st count = .ok (st', count'))
    (x : String) (hx : x ∈ st.excluded) : x ∈ st'.excluded := by
  revert h
  unfold walkStep
  split
  · intro h; cases h
  · split
    · intro h; cases h; exact hx
    · split
      · intro h; cases h; exact hx
      · split
        · intro h; cases h
        · split
          · intro h; cases h
          · split
            · intro h; cases h; exact hx
            · split
              · rename_i st1 msg hp
                intro h
                cases h
                have := processFileM_mono url e.inputPath e.outputPath e.tempPath
                  e.relPath norm e.oracle st x hx
                rw [hp] at this
                exact this
              · rename_i st1 hp
                intro h
                cases h
                have := processFileM_mono url e.inputPath e.outputPath e.tempPath
                  e.relPath norm e.oracle st x hx
                rw [hp] at this
                exact this

/-- The whole walk never removes ledger entries. -/
theorem walkAll_mono (excl0 : List String) (url : String)
    (norm : String → String) :
    ∀ (entries : List WalkEntry) (st : PState) (n : Nat) (st' : PState) (n' : Nat),
      walkAll excl0 url norm entries st n = .ok (st', n') →
      ∀ x ∈ st.excluded, x ∈ st'.excluded := by
  intro entries
  induction entries with
  | nil =>
    intro st n st' n' h x hx
    unfold walkAll at h
    cases h
    exact hx
  | cons e rest ih =>
    intro st n st' n' h x hx
    unfold walkAll at h
    cases hstep : walkStep excl0 url norm e st n with
    | error msg => rw [hstep] at h; cases h
    | ok p =>
      obtain ⟨st1, n1⟩ := p
      rw [hstep] at h
      exact ih st1 n1 st' n' h x
        (walkStep_mono excl0 url norm e st n st1 n1 hstep x hx)

/-- A clean entry can never abort the walk callback. -/
theorem walkStep_total (excl0 : List String) (url : String)
    (norm : String → String) (e : WalkEntry) (st : PState) (count : Nat)
    (hc : cleanEntry e) :
    ∃ st' count', walkStep excl0 url norm e st count = .ok (st', count') := by
  obtain ⟨h1, h2, h3⟩ := hc
  unfold walkStep
  rw [h1]
  simp only [Bool.false_eq_true, if_false]
  split
  · exact ⟨st, count, rfl⟩
  · split
    · exact ⟨st, count, rfl⟩
    · rw [h2]
      simp only [Bool.false_eq_true, if_false, h3]
      split
      · exact ⟨st, count, rfl⟩
      · split
        · rename_i st1 msg hp
          exact ⟨st1, count, rfl⟩
        · rename_i st1 hp
          exact ⟨st1, count + 1, rfl⟩

/-- A walk over clean entries always completes without an error. -/
theorem walkAll_total (excl0 : List String) (url : String)
    (norm : String → String) :
    ∀ (entries : List WalkEntry) (st : PState) (n : Nat),
      (∀ e ∈ entries, cleanEntry e) →
      ∃ st' n', walkAll excl0 url norm entries st n = .ok (st', n') := by
  intro entries
  induction entries with
  | nil => intro st n _; exact ⟨st, n, rfl⟩
  | cons e rest ih =>
    intro st n hc
    obtain ⟨st1, n1, hstep⟩ :=
      walkStep_total excl0 url norm e st n (hc e (List.mem_cons_self e rest))
    obtain ⟨st', n', hrest⟩ :=
      ih st1 n1 (fun e' he' => hc e' (List.mem_cons_of_mem e he'))
    refine ⟨st', n', ?_⟩
    unfold walkAll
    rw [hstep]
    exact hrest

/-- C5: in every pipeline execution the relative path of a document is recorded
in the exclusion set only after its merged output was successfully written
(a changed ledger implies the call succeeded and the merged artifact is at
the output path), and no pipeline operation removes an entry — both a
single `processFile` call and a whole directory walk only grow the set. -/
theorem C5_ledger_after_write (url ip op tp rel : String) (norm : String → String)
    (o : FileOracle) (st : PState) :
    (∀ x ∈ st.excluded, x ∈ (processFileM url ip op tp rel norm o st).1.excluded) ∧
    ((processFileM url ip op tp rel norm o st).1.excluded ≠ st.excluded →
      (processFileM url ip op tp rel norm o st).2 = none ∧
      ∃ content, o.readResult = some content ∧
        (processFileM url ip op tp rel norm o st).1.fs op =
          some (finalContent (enrichResult url content o.enrichOutcome).1 content)) ∧
    (∀ (excl0 : List String) (entries : List WalkEntry) (st0 : PState) (n0 : Nat)
        (st' : PState) (n' : Nat),
      walkAll excl0 url norm entries st0 n0 = .ok (st', n') →
      ∀ x ∈ st0.excluded, x ∈ st'.excluded) :=
  ⟨fun x hx => processFileM_mono url ip op tp rel norm o st x hx,
   fun h => processFileM_changed url ip op tp rel norm o st h,
   fun excl0 entries st0 n0 st' n' h x hx =>
     walkAll_mono excl0 url norm entries st0 n0 st' n' h x hx⟩

/-- C5 witness: a pre-existing ledger entry survives a successful
`processFile` call. -/
theorem C5_witness :
    "k" ∈ (processFileM "https://gen.example/api" "in/b.md" "done/b.md"
      "done/t2.tmp" "b.md" id egOkEntry.oracle ⟨fun _ => none, ["k"]⟩).1.excluded :=
  (C5_ledger_after_write "https://gen.example/api" "in/b.md" "done/b.md"
    "done/t2.tmp" "b.md" id egOkEntry.oracle ⟨fun _ => none, ["k"]⟩).1 "k" (by simp)

/-- C8: a directory walk over clean entries never aborts, whatever the
per-document outcomes are; and in a run where one document fails while its
sibling succeeds, the walk returns success with one processed file, the
failed document has no output file, and the merged artifact of the sibling is
written. -/
theorem C8_failure_isolated (excl0 : List String) (url : String)
    (norm : String → String) (e1 e2 : WalkEntry) (st0 : PState)
    (hc1 : cleanEntry e1) (hc2 : cleanEntry e2)
    (hd1 : e1.isDir = false) (hd2 : e2.isDir = false)
    (hm1 : goHasSuffix (goLower e1.name) ".md" = true)
    (hm2 : goHasSuffix (goLower e2.name) ".md" = true)
    (hx1 : excl0.contains e1.relPath = false)
    (hx2 : excl0.contains e2.relPath = false)
    (hf : ∀ st : PState,
      (processFileM url e1.inputPath e1.outputPath e1.tempPath e1.relPath norm
        e1.oracle st).2 ≠ none)
    (hs : ∀ st : PState,
      (processFileM url e2.inputPath e2.outputPath e2.tempPath e2.relPath norm
        e2.oracle st).2 = none)
    (hp1 : e1.outputPath ≠ e1.tempPath)
    (hp2 : e1.outputPath ≠ e2.tempPath) (hp3 : e1.outputPath ≠ e2.outputPath) :
    (∀ (entries : List WalkEntry) (st : PState) (n : Nat),
      (∀ e ∈ entries, cleanEntry e) →
      ∃ st' n', walkAll excl0 url norm entries st n = .ok (st', n')) ∧
    ∃ st', walkAll excl0 url norm [e1, e2] st0 0 = .ok (st', 1) ∧
      st'.fs e1.outputPath = st0.fs e1.outputPath ∧
      ∃ c2, e2.oracle.readResult = some c2 ∧
        st'.fs e2.outputPath =
          some (finalContent (enrichResult url c2 e2.oracle.enrichOutcome).1 c2) := by
  refine ⟨fun entries st n hc => walkAll_total excl0 url norm entries st n hc, ?_⟩
  obtain ⟨hw1, hr1, ht1⟩ := hc1
  obtain ⟨hw2, hr2, ht2⟩ := hc2
  rcases hPe1 : processFileM url e1.inputPath e1.outputPath e1.tempPath
    e1.relPath norm e1.oracle st0 with ⟨st1, err1⟩
  cases err1 with
  | none =>
    exact absurd (show (processFileM url e1.inputPath e1.outputPath e1.tempPath
      e1.relPath norm e1.oracle st0).2 = none by rw [hPe1]) (hf st0)
  | some msg1 =>
    have herr1 : (processFileM url e1.inputPath e1.outputPath e1.tempPath
        e1.relPath norm e1.oracle st0).2 ≠ none := by
      rw [hPe1]; simp
    have hfr1 : st1.fs e1.outputPath = st0.fs e1.outputPath := by
      have h := (processFileM_err_frame url e1.inputPath e1.outputPath e1.tempPath
        e1.relPath norm e1.oracle st0 herr1 e1.outputPath hp1).1
      rw [hPe1] at h
      exact h
    rcases hPe2 : processFileM url e2.inputPath e2.outputPath e2.tempPath
      e2.relPath norm e2.oracle st1 with ⟨st2, err2⟩
    cases err2 with
    | some msg2 =>
      have h := hs st1
      rw [hPe2] at h
      cases h
    | none =>
      have hx1' : ¬ (e1.relPath ∈ excl0) := by simpa using hx1
      have hx2' : ¬ (e2.relPath ∈ excl0) := by simpa using hx2
      have hstep1 : walkStep excl0 url norm e1 st0 0 = .ok (st1, 0) := by
        simp [walkStep, hw1, hd1, hm1, hr1, ht1, hx1', hPe1]
      have hstep2 : walkStep excl0 url norm e2 st1 0 = .ok (st2, 1) := by
        simp [walkStep, hw2, hd2, hm2, hr2, ht2, hx2', hPe2]
      have hrun : walkAll excl0 url norm [e1, e2] st0 0 = .ok (st2, 1) := by
        simp only [walkAll, hstep1, hstep2]
      refine ⟨st2, hrun, ?_, ?_⟩
      · have h := processFileM_frame url e2.inputPath e2.outputPath e2.tempPath
          e2.relPath norm e2.oracle st1 e1.outputPath hp2 hp3
        rw [hPe2] at h
        rw [h]
        exact hfr1
      · have hok : (processFileM url e2.inputPath e2.outputPath e2.tempPath
            e2.relPath norm e2.oracle st1).2 = none := by
          rw [hPe2]
        obtain ⟨c2, hcread, hout⟩ := processFileM_ok_content url e2.inputPath
          e2.outputPath e2.tempPath e2.relPath norm e2.oracle st1 hok
        rw [hPe2] at hout
        exact ⟨c2, hcread, hout⟩

/-- C8 witness: a run over a failing document and a healthy sibling — the
walk succeeds with one processed file, the failed document produced no
output, the merged artifact of the sibling is on disk. -/
theorem C8_witness :
    ∃ st', walkAll [] "https://gen.example/api" id [egFailEntry, egOkEntry]
        egEmptyState 0 = .ok (st', 1) ∧
      st'.fs egFailEntry.outputPath = egEmptyState.fs egFailEntry.outputPath ∧
      ∃ c2, egOkEntry.oracle.readResult = some c2 ∧
        st'.fs egOkEntry.outputPath =
          some (finalContent
            (enrichResult "https://gen.example/api" c2
              egOkEntry.oracle.enrichOutcome).1 c2) :=
  (C8_failure_isolated [] "https://gen.example/api" id egFailEntry egOkEntry
    egEmptyState ⟨rfl, rfl, by decide⟩ ⟨rfl, rfl, by decide⟩ rfl rfl
    (by decide) (by decide) rfl rfl
    (fun st h => by
      rw [show (processFileM "https://gen.example/api" egFailEntry.inputPath
        egFailEntry.outputPath egFailEntry.tempPath egFailEntry.relPath id
        egFailEntry.oracle st).2 = some "ошибка при чтении файла" from rfl] at h
      exact Option.noConfusion h)
    (fun st => rfl)
    (by decide) (by decide) (by decide)).2

/-- C10: whenever `enrichContent` fails before shape extraction the string
component of its result is the original content (so a caller ignoring the
error receives the unenriched text), while a failure during shape
extraction yields the empty string. -/
theorem C10_error_returns (url content : String) (o : EnrichOutcome) :
    (isEarlyFailure o = true →
      (enrichResult url content o).1 = content ∧
      (enrichResult url content o).2 ≠ none) ∧
    (∀ resp e, o = .parsed resp →
      extractByShape (respShape url) resp = .error e →
      enrichResult url content o = ("", some e)) := by
  cases o with
  | parsed resp =>
    refine ⟨by simp [isEarlyFailure], ?_⟩
    intro resp' e h1 h2
    cases h1
    simp [enrichResult, h2]
  | marshalErr m => exact ⟨fun _ => ⟨rfl, by simp [enrichResult]⟩, by intro _ _ h; cases h⟩
  | requestErr m => exact ⟨fun _ => ⟨rfl, by simp [enrichResult]⟩, by intro _ _ h; cases h⟩
  | httpErr m => exact ⟨fun _ => ⟨rfl, by simp [enrichResult]⟩, by intro _ _ h; cases h⟩
  | statusErr c b => exact ⟨fun _ => ⟨rfl, by simp [enrichResult]⟩, by intro _ _ h; cases h⟩
  | readErr m => exact ⟨fun _ => ⟨rfl, by simp [enrichResult]⟩, by intro _ _ h; cases h⟩
  | unmarshalErr m => exact ⟨fun _ => ⟨rfl, by simp [enrichResult]⟩, by intro _ _ h; cases h⟩

/-- C10 witness: a non-200 status returns the original content together
with an error. -/
theorem C10_witness :
    (enrichResult "https://u.example" "doc" (.statusErr 500 "boom")).1 = "doc" ∧
    (enrichResult "https://u.example" "doc" (.statusErr 500 "boom")).2 ≠ none :=
  (C10_error_returns "https://u.example" "doc" (.statusErr 500 "boom")).1 rfl

end Rich
